import Mathlib

/-!
Verification of the Authorization & Role Resolution Engine of `src/Auth.js`
(AulaEducation parse-server fork).

The JavaScript source is shallowly embedded: every record type that the
engine reads from the data store becomes a Lean structure, every pure
helper of `Auth.js` becomes a Lean function with the same name, the
stateful entry point `Auth.prototype.getUserRoles` becomes an explicit
state-passing function over an `AuthState`, and the external data store
(`RestQuery.execute` against the various collections) becomes a pure
lookup in an `Env` value.  Promise settlement is modelled by running each
call to completion; `Option`/`Except` capture `undefined`/rejections.
-/

/-- A `Parse.Error`: a numeric code plus a human readable message. -/
structure ParseError where
  code : Nat
  message : String
deriving DecidableEq

/-- The `Parse.Error.OPERATION_FORBIDDEN` is code 119. -/
def OPERATION_FORBIDDEN : Nat := 119

/-- A Parse pointer as used by `data.post` / `obj.post`:
`expr { __type: Pointer, className, objectId }`. -/
structure PostPtr where
  className : String
  objectId : String
deriving DecidableEq

/-- The fields of a request's `data` / `query` / `restQuery` object that
`getUserRoles`, `getSpacePointer` and `isCreateRequest` inspect.  A JS
object may lack any of them, hence the `Option`s.  A `classRoom` value is
the space pointer itself, represented by its objectId string. -/
structure ReqObj where
  objectId : Option String := none
  classRoom : Option String := none
  post : Option PostPtr := none
  itemType : Option String := none
  itemId : Option String := none
deriving DecidableEq

/-- JS truthiness of a possibly-absent string field: `undefined`, `null`
and the empty string are falsy. -/
def strTruthy : Option String → Bool
  | some s => !s.isEmpty
  | none => false

/-- A `UBRoleDefinition` record: `{ role, permissions }`. -/
structure RoleDef where
  role : String
  permissions : List String
deriving DecidableEq

/-- A `UBClassRoomUser` record (space membership): the `user` pointer's
objectId, the `classRoom` pointer's objectId, and the granted role name. -/
structure ClassRoomUserRec where
  user : String
  classRoom : String
  role : String
deriving DecidableEq

/-- A stored object reachable by the space-pointer chase: its class, its
id, optionally a direct `classRoom` pointer, optionally a parent `post`
pointer. -/
structure DbObj where
  className : String
  objectId : String
  classRoom : Option String := none
  post : Option PostPtr := none
deriving DecidableEq

/-- A legacy `_Role` record: `users` is the relation of directly-member
users (their ids), `roles` the relation of directly-member roles (their
ids); querying `{ roles: ptr }` finds the *parents* of `ptr`. -/
structure RoleRec where
  objectId : String
  name : String
  users : List String := []
  roles : List String := []
deriving DecidableEq

/-- The authenticated user as the engine sees it: `user.id` and the
`userRoles` attribute read by `this.user.get('userRoles')`. -/
structure UserRec where
  id : String
  userRoles : Option (List String) := none
deriving DecidableEq

/-- The `Auth` object's identity part: master flag and optional user. -/
structure AuthRec where
  isMaster : Bool
  user : Option UserRec
deriving DecidableEq

deriving instance DecidableEq for Except

/-- The mutable resolution state on an `Auth` object.  `rolePromise`
stores the promise assigned by `this.rolePromise = ...`; since every run
is modelled to completion, a stored promise is represented by its eventual
settlement (`Except.ok` = fulfilled, `Except.error` = rejected). -/
structure AuthState where
  userRoles : List String := []
  fetchedRoles : Bool := false
  rolePromise : Option (Except ParseError (List String)) := none
deriving DecidableEq

/-- The external data store and role cache (read at elevated privilege by
`RestQuery`): the four collections the engine queries, plus the
`cacheController.role` entries. -/
structure Env where
  roleDefs : List RoleDef := []
  classRoomUsers : List ClassRoomUserRec := []
  objects : List DbObj := []
  legacyRoles : List RoleRec := []
  roleCache : List (String × List String) := []
deriving DecidableEq

/-- The `cacheController.role.get(userId)`. -/
def Env.cacheGet (env : Env) (userId : String) : Option (List String) :=
  (env.roleCache.find? (fun kv => kv.1 == userId)).map (fun kv => kv.2)

/-! ### Module-level helpers of Auth.js (custom role assignment section) -/

/-- Split on dash at the character level: `splitCharList cs` is the list
of dash-free segments of `cs` (JS `str.split('-')` yields `[""]` on the
empty string and empty segments between adjacent dashes). -/
def splitCharList : List Char → List (List Char)
  | [] => [[]]
  | c :: cs =>
    if c = '-' then [] :: splitCharList cs
    else
      match splitCharList cs with
      | h :: t => (c :: h) :: t
      | [] => [[c]]

/-- JS `str.split('-')`. -/
def jsSplitDash (s : String) : List String :=
  (splitCharList s.data).map String.mk

/-- The `str.split('-')[0]`. -/
def extractFirstWord (str : String) : String :=
  (jsSplitDash str).headD ""

/-- The `array.indexOf(str) > -1`. -/
def hasStringInArray (str : String) (array : List String) : Bool :=
  array.contains str

/-- The `getClassRoles`: the definitions whose permissions mention
`className` as the class part of some permission token. -/
def getClassRoles (allCustomRoles : List RoleDef) (className : String) : List RoleDef :=
  allCustomRoles.filter (fun ac => hasStringInArray className (ac.permissions.map extractFirstWord))

/-- The `flattenArray`: `array.reduce((a, b) => b ? a.concat(b) : a, [])`.
Here every element is itself an array, and an array is always truthy, so
the falsy guard never fires. -/
def flattenArray (array : List (List α)) : List α :=
  array.foldl (fun a b => a ++ b) []

/-- The `removeEmptyValue`: `array.filter(a => !!a)` over elements that are
either a value or `undefined`. -/
def removeEmptyValue (array : List (Option α)) : List α :=
  array.filterMap id

/-- Helper for `filterDuplication`: keep elements not seen yet, front to
back. -/
def filterDuplicationAux : List String → List String → List String
  | _, [] => []
  | seen, x :: xs =>
    if seen.contains x then filterDuplicationAux seen xs
    else x :: filterDuplicationAux (x :: seen) xs

/-- The `filterDuplication`: `array.filter((v, i, a) => i == a.indexOf(v))`,
i.e. keep exactly the first occurrence of every element.  The same
operation models the source's other dedup idiom, spreading a JS `Set`
built from the array, whose iteration order is insertion order. -/
def filterDuplication (array : List String) : List String :=
  filterDuplicationAux [] array

/-- The `roleMap` object `create → write, update → write, read → read`;
`none` models an absent key (lookup yields `undefined`). -/
def roleMap : String → Option String
  | "create" => some "write"
  | "update" => some "write"
  | "read" => some "read"
  | _ => none

/-- A JS template literal `${x}` renders `undefined` as the text
"undefined". -/
def jsShow : Option String → String
  | some s => s
  | none => "undefined"

/-- Module-level `getUserRoles(allCustomRoles, uRoles, userId)`: flat
custom-role assignments of the user, with the raw `userId` concatenated
onto the flattened permission list (`roles.concat(userId)` appends the
string as a single element). -/
def getUserRoles (allCustomRoles : List RoleDef) (uRoles : Option (List String))
    (userId : String) : List String :=
  match uRoles with
  | none => []
  | some l =>
    if l.isEmpty then []
    else
      let rawRoles := (allCustomRoles.filter (fun ac => hasStringInArray ac.role l)).map
        (fun uR => uR.permissions)
      let roles := flattenArray rawRoles
      roles ++ [userId]

/-- The `transformUserRoles(roles)`: split each entry on `-`, remap the
action through `roleMap` when it is a known action, else keep just the
class part; dedupe. -/
def transformUserRoles (roles : List String) : List String :=
  let tRoles := roles.map (fun r =>
    let parts := jsSplitDash r
    let cName := parts.headD ""
    match parts.get? 1 with
    | some cRole =>
      match roleMap cRole with
      | some m => "role:" ++ cName ++ "-" ++ m
      | none => "role:" ++ cName
    | none => "role:" ++ cName)
  filterDuplication tRoles

/-- A scoped token produced by `transfromClassRoles`: the token string
and the `isCreate` tag (the JS object's key is absent — hence falsy — in
the legacy `classRoom` branch, modelled by the `false` default). -/
structure TokenTag where
  role : String
  isCreate : Bool := false
deriving DecidableEq

/-- The `transfromClassRoles(matchedRole, className, spaceId)` (sic): map
each permission of the matched definition; `undefined` array entries
(neither branch applies) are modelled by `none`.  An unmapped action in
the `className` branch renders as the literal text "undefined" via the
template string. -/
def transfromClassRoles (matchedRole : Option RoleDef) (className spaceId : String) :
    List (Option TokenTag) :=
  match matchedRole with
  | none => []
  | some mr =>
    mr.permissions.map (fun p =>
      let parts := jsSplitDash p
      let cName := parts.headD ""
      let permisson := parts.get? 1
      if cName == className then
        some { role := "role:" ++ cName ++ "-" ++ spaceId ++ "-" ++ jsShow (permisson.bind roleMap),
               isCreate := permisson == some "create" }
      else if cName == "classRoom" then
        some { role := "role:" ++ cName ++ "-" ++ spaceId ++ "-" ++ jsShow permisson }
      else none)

/-- The `isNewRoleEnabled(allRoles)`: find the first definition whose role is
"root" and test that its first permission is "all" (`permissions[0] ===
'all'`; an array — even empty — is always truthy). -/
def isNewRoleEnabled (allRoles : List RoleDef) : Bool :=
  match allRoles.find? (fun ar => ar.role == "root") with
  | some rootRole => rootRole.permissions.head? == some "all"
  | none => false

/-- The claim's mode-selection predicate, following the spec's words:
the definitions contain one whose `role` equals "root" and whose
`permissions` equals exactly `["all"]`. -/
def specRootAllPresent (defs : List RoleDef) : Bool :=
  defs.any (fun d => d.role == "root" && d.permissions == ["all"])

/-! ### Query plumbing -/

/-- Settlement of a JS promise: fulfilled, rejected, or never settled. -/
inductive POutcome (α : Type) where
  | resolved (a : α)
  | rejected (e : ParseError)
  | pending
deriving DecidableEq

/-- The `Auth.prototype._queryByClassName` wraps `query.execute()` in
`new Promise(resolve => { ... execute().then(response =>
resolve(response.results)) })`: only the fulfilment is forwarded.  A
rejection of `execute()` has no handler, so the outer promise never
settles.  The argument is the settlement of `execute()`. -/
def queryByClassName (α : Type) (exec : Except ParseError (List α)) : POutcome (List α) :=
  match exec with
  | Except.ok results => POutcome.resolved results
  | Except.error _ => POutcome.pending

/-! ### The custom-role loader `_loadCustomRoles` -/

/-- The `UBClassRoomUser` query of `_loadCustomRoles`: records matching
`{ user: pointer(userId), classRoom: spacePointer }`. -/
def membershipResults (classRoomUsers : List ClassRoomUserRec) (userId spacePointer : String) :
    List ClassRoomUserRec :=
  classRoomUsers.filter (fun r => r.user == userId && r.classRoom == spacePointer)

/-- The `flattenUserClassRoles` intermediate of `_loadCustomRoles`: per
membership record, map the matching class definition through
`transfromClassRoles`, then flatten and drop the `undefined` entries. -/
def survivingClassTokens (classRoomUsers : List ClassRoomUserRec) (userId spacePointer : String)
    (classRoles : List RoleDef) (className : String) : List TokenTag :=
  let results := membershipResults classRoomUsers userId spacePointer
  let userClassRoles := results.map (fun result =>
    let spaceId := result.classRoom
    let matchedRole := classRoles.find? (fun cr => cr.role == result.role)
    transfromClassRoles matchedRole className spaceId)
  removeEmptyValue (flattenArray userClassRoles)

/-- The `canCreate` reduction of `_loadCustomRoles`:
`reduce((a, b) => a || b.isCreate, false)`. -/
def canCreateOf (tokens : List TokenTag) : Bool :=
  tokens.foldl (fun a b => a || b.isCreate) false

/-- The `Auth.prototype._loadCustomRoles` (run to settlement, data store
supplied as `classRoomUsers`): reject with OPERATION_FORBIDDEN when the
principal has no membership in the space, or on an unauthorized create;
otherwise fulfil with the deduped scoped tokens concatenated with the
global `userRoles`. -/
def Auth.loadCustomRoles (classRoomUsers : List ClassRoomUserRec) (userId : String)
    (userRoles : List String) (classRoles : List RoleDef) (className : String)
    (spacePointer : String) (isCreateRequest : Bool) : Except ParseError (List String) :=
  let results := membershipResults classRoomUsers userId spacePointer
  if results.isEmpty then
    Except.error ⟨OPERATION_FORBIDDEN,
      "User " ++ userId ++ " is not allowed to access space " ++ spacePointer⟩
  else
    let flattenUserClassRoles := survivingClassTokens classRoomUsers userId spacePointer classRoles className
    let canCreate := canCreateOf flattenUserClassRoles
    if isCreateRequest && !canCreate then
      Except.error ⟨OPERATION_FORBIDDEN,
        "User " ++ userId ++ " is not allowed to create new object in " ++ className⟩
    else
      let cRoles := flattenUserClassRoles.map (fun uR => uR.role)
      let tCRoles := filterDuplication cRoles
      Except.ok (tCRoles ++ userRoles)

/-! ### The space pointer resolver -/

/-- The `Auth.prototype._queryToSpace` specialised to the only `restWhere` it
receives, `{ objectId }`: fetch the first matching object; return its
`classRoom` pointer if present; else chase its `post` pointer; else
resolve `null`.  The JS recursion has no depth bound, so a `fuel`
parameter models the recursion depth: the result is `none` when the
chase does not terminate within `fuel` hops (the promise never settles),
`some r` when it settles with space `r` (`r = none` is JS `null`). -/
def queryToSpace (db : List DbObj) : Nat → String → String → Option (Option String)
  | 0, _, _ => none
  | fuel + 1, className, objectId =>
    match db.filter (fun o => o.className == className && o.objectId == objectId) with
    | [] => some none
    | obj :: _ =>
      match obj.classRoom with
      | some cr => some (some cr)
      | none =>
        match obj.post with
        | some p =>
          if !obj.objectId.isEmpty then queryToSpace db fuel p.className p.objectId
          else some none
        | none => some none

/-- The `Auth.prototype.getSpacePointer`: direct `classRoom` on `data`, else
on `restQuery`; otherwise `restWhere`/`restClass` are *assigned in
sequence* — first from `data.post`, then overwritten by
`(data.itemType, data.itemId)`, then overwritten by `query.objectId` with
`className` — and the chase starts from whatever survived; with nothing
assigned (or a falsy `restClass`) the promise resolves `undefined`,
modelled as `some none`. -/
def getSpacePointer (db : List DbObj) (fuel : Nat) (className : String)
    (data query restQuery : Option ReqObj) : Option (Option String) :=
  match data.bind ReqObj.classRoom with
  | some cr => some (some cr)
  | none =>
    match restQuery.bind ReqObj.classRoom with
    | some cr => some (some cr)
    | none =>
      let rw1 : Option (String × String) :=
        match data.bind ReqObj.post with
        | some p => if !p.objectId.isEmpty then some (p.className, p.objectId) else none
        | none => none
      let rw2 : Option (String × String) :=
        if strTruthy (data.bind ReqObj.itemType) && strTruthy (data.bind ReqObj.itemId) then
          some ((data.bind ReqObj.itemType).getD "", (data.bind ReqObj.itemId).getD "")
        else rw1
      let rw3 : Option (String × String) :=
        if strTruthy (query.bind ReqObj.objectId) then
          some (className, (query.bind ReqObj.objectId).getD "")
        else rw2
      match rw3 with
      | some (cls, oid) => if cls.isEmpty then some none else queryToSpace db fuel cls oid
      | none => some none

/-- The `isCreateRequest` as computed in `getUserRoles`:
`(!data || !data.objectId) && (!query || !query.objectId)`. -/
def isCreateRequest (data query : Option ReqObj) : Bool :=
  (data.isNone || !strTruthy (data.bind ReqObj.objectId)) &&
  (query.isNone || !strTruthy (query.bind ReqObj.objectId))

/-! ### The legacy role-graph walk -/

/-- The `Auth.prototype._getAllRolesNamesForRoleIds(roleIDs, names,
queriedRoles)`: filter out already-queried ids, mark the rest queried,
stop (deduping) when none are left; otherwise query the parents of the
remaining ids over the `roles` relation (single-pointer or `$in` form —
both mean "some member id of the record is in `ins`"), append their
names, recurse on their ids, dedupe every settled result.  `fuel` bounds
the recursion depth (`none` = depth exhausted); the termination theorem
shows any fuel above a finite measure is enough. -/
def Auth.getAllRolesNamesForRoleIds (db : List RoleRec) :
    Nat → List String → List String → List String → Option (List String)
  | 0, _, _, _ => none
  | fuel + 1, roleIDs, names, queriedRoles =>
    let ins := roleIDs.filter (fun roleID => !queriedRoles.contains roleID)
    if ins.isEmpty then some (filterDuplication names)
    else
      let results := db.filter (fun r => r.roles.any (fun m => ins.contains m))
      if results.isEmpty then some (filterDuplication names)
      else
        (Auth.getAllRolesNamesForRoleIds db fuel (results.map (fun r => r.objectId))
          (names ++ results.map (fun r => r.name)) (queriedRoles ++ ins)).map filterDuplication

/-- Ghost-instrumented variant of the walk: additionally returns, per
round that actually issued a `_Role` query, the batch of role ids placed
in that query (`ins`).  Its first component equals the plain walk. -/
def Auth.getAllRolesNamesTrace (db : List RoleRec) :
    Nat → List String → List String → List String → Option (List String) × List (List String)
  | 0, _, _, _ => (none, [])
  | fuel + 1, roleIDs, names, queriedRoles =>
    let ins := roleIDs.filter (fun roleID => !queriedRoles.contains roleID)
    if ins.isEmpty then (some (filterDuplication names), [])
    else
      let results := db.filter (fun r => r.roles.any (fun m => ins.contains m))
      if results.isEmpty then (some (filterDuplication names), [ins])
      else
        let rest := Auth.getAllRolesNamesTrace db fuel (results.map (fun r => r.objectId))
          (names ++ results.map (fun r => r.name)) (queriedRoles ++ ins)
        (rest.1.map filterDuplication, ins :: rest.2)

/-- Reachability along the "is parent of" edge of the stored role graph:
`Reaches db i r` holds when role record `r` is found by the walk's
frontier expansion started from role id `i` — `r` directly contains `i`
in its `roles` relation, or contains a reachable role's id. -/
inductive Reaches (db : List RoleRec) (i : String) : RoleRec → Prop
  | direct (r : RoleRec) : r ∈ db → i ∈ r.roles → Reaches db i r
  | step (r r' : RoleRec) :
      Reaches db i r → r' ∈ db → r.objectId ∈ r'.roles → Reaches db i r'

/-- The decreasing measure of the walk: role ids mentioned by the
frontier or the store but not yet queried. -/
def walkMeasure (db : List RoleRec) (roleIDs queriedRoles : List String) : Nat :=
  ((roleIDs.toFinset ∪ (db.map RoleRec.objectId).toFinset) \ queriedRoles.toFinset).card

/-! ### The legacy loader `_loadRoles` -/

/-- The `Auth.prototype._loadRoles(uRoles)` run to settlement.  Returns the
new `AuthState`, the settlement, and the list of collections queried
through `RestQuery` (ghost).  On a cache hit the assigned promise is left
in `rolePromise` (the source nulls it only in the other branches).  The
walk is run with provably sufficient fuel. -/
def Auth.loadRoles (env : Env) (userId : String) (uRoles : List String) (st : AuthState) :
    AuthState × Except ParseError (List String) × List String :=
  match env.cacheGet userId with
  | some cachedRoles =>
    ({ st with fetchedRoles := true, userRoles := cachedRoles,
               rolePromise := some (Except.ok cachedRoles) },
     Except.ok cachedRoles, [])
  | none =>
    let results := env.legacyRoles.filter (fun r => r.users.contains userId)
    if results.isEmpty then
      ({ st with userRoles := [], fetchedRoles := true, rolePromise := none },
       Except.ok [], ["Role"])
    else
      let ids := results.map (fun r => r.objectId)
      let names := results.map (fun r => r.name)
      let roleNames := (Auth.getAllRolesNamesForRoleIds env.legacyRoles
        (ids.length + env.legacyRoles.length + 1) ids names []).getD []
      let userRoles := (roleNames.map (fun r => "role:" ++ r)) ++ uRoles
      ({ st with userRoles := userRoles, fetchedRoles := true, rolePromise := none },
       Except.ok userRoles, ["Role", "RoleWalk"])

/-! ### The entry point `Auth.prototype.getUserRoles` -/

/-- The `else` branch of `getUserRoles` taken when the class has no
applicable definitions or no space pointer resolved: gate creates on a
raw `"<className>-create"` entry of the untransformed user roles, else
fall through to the legacy loader with the transformed global tokens.
The thrown error happens before `this.rolePromise` is assigned, so the
state is left untouched on that path. -/
def Auth.getUserRolesFallback (env : Env) (user : UserRec) (st : AuthState) (className : String)
    (tUserRoles userRoles : List String) (isCreate : Bool) :
    AuthState × Except ParseError (List String) × List String :=
  let roleName := className ++ "-create"
  let canCreate := userRoles.contains roleName
  if isCreate && !canCreate then
    (st, Except.error ⟨OPERATION_FORBIDDEN,
      "User " ++ user.id ++ " is not allowed to create new object in " ++ className⟩,
     ["UBRoleDefinition"])
  else
    let out := Auth.loadRoles env user.id tUserRoles st
    (out.1, out.2.1, "UBRoleDefinition" :: out.2.2)

/-- The `Auth.prototype.getUserRoles(className, data, query, restQuery)` run
to settlement.  Returns `none` only when the space-pointer chase diverges
(the promise never settles); otherwise the new state, the settlement and
the ghost list of queried collections.  A failed `_loadCustomRoles`
leaves the rejected promise stored in `rolePromise` (the source nulls it
only on the success path), without touching `userRoles`/`fetchedRoles`. -/
def Auth.getUserRolesRun (env : Env) (auth : AuthRec) (st : AuthState) (className : String)
    (data query restQuery : Option ReqObj) (fuel : Nat) :
    Option (AuthState × Except ParseError (List String) × List String) :=
  if auth.isMaster || auth.user.isNone then some (st, Except.ok [], [])
  else if st.fetchedRoles then some (st, Except.ok st.userRoles, [])
  else
    match st.rolePromise with
    | some p => some (st, p, [])
    | none =>
      let user := auth.user.getD { id := "" }
      let acRoles := env.roleDefs
      if !isNewRoleEnabled acRoles then
        let out := Auth.loadRoles env user.id [] st
        some (out.1, out.2.1, "UBRoleDefinition" :: out.2.2)
      else
        match getSpacePointer env.objects fuel className data query restQuery with
        | none => none
        | some spacePointer =>
          let classRoles := getClassRoles acRoles className
          let userRoles := getUserRoles acRoles user.userRoles user.id
          let tUserRoles := transformUserRoles userRoles
          let isCreate := isCreateRequest data query
          match spacePointer with
          | some sp =>
            if !classRoles.isEmpty then
              match Auth.loadCustomRoles env.classRoomUsers user.id tUserRoles classRoles
                  className sp isCreate with
              | Except.ok toks =>
                some ({ userRoles := toks, fetchedRoles := true, rolePromise := none },
                      Except.ok toks, ["UBRoleDefinition", "UBClassRoomUser"])
              | Except.error e =>
                some ({ st with rolePromise := some (Except.error e) },
                      Except.error e, ["UBRoleDefinition", "UBClassRoomUser"])
            else some (Auth.getUserRolesFallback env user st className tUserRoles userRoles isCreate)
          | none => some (Auth.getUserRolesFallback env user st className tUserRoles userRoles isCreate)

/-- What one invocation of `getUserRoles` does *synchronously*, before
its first suspension point (`this._getAllCustomRoles()`): translated from
the body up to that call, which performs no assignment to any field of
the `Auth` object — the function's type records that the state is only
read.  A second call entering during that window therefore observes the
caller's state unchanged. -/
inductive SyncResult where
  | immediateEmpty
  | memoized (roles : List String)
  | storedPromise (p : Except ParseError (List String))
  | issuesQuery (collection : String)
deriving DecidableEq

def SyncResult.isStoredPromise : SyncResult → Bool
  | SyncResult.storedPromise _ => true
  | _ => false

def Auth.getUserRolesSyncPhase (auth : AuthRec) (st : AuthState) : SyncResult :=
  if auth.isMaster || auth.user.isNone then SyncResult.immediateEmpty
  else if st.fetchedRoles then SyncResult.memoized st.userRoles
  else
    match st.rolePromise with
    | some p => SyncResult.storedPromise p
    | none => SyncResult.issuesQuery "UBRoleDefinition"

/-! ### Helper lemmas: deduplication -/

theorem mem_filterDuplicationAux (a : String) :
    ∀ (l seen : List String), a ∈ filterDuplicationAux seen l ↔ a ∈ l ∧ a ∉ seen := by
  intro l
  induction l with
  | nil => intro seen; simp [filterDuplicationAux]
  | cons x xs ih =>
    intro seen
    simp only [filterDuplicationAux]
    split
    · rename_i hc
      have hx : x ∈ seen := by simpa using hc
      rw [ih seen]
      constructor
      · exact fun h => ⟨List.mem_cons_of_mem _ h.1, h.2⟩
      · rintro ⟨h1, h2⟩
        rcases List.mem_cons.mp h1 with h | h
        · exact absurd (h ▸ hx) h2
        · exact ⟨h, h2⟩
    · rename_i hc
      have hx : x ∉ seen := by simpa using hc
      rw [List.mem_cons, ih (x :: seen)]
      constructor
      · rintro (h | ⟨h1, h2⟩)
        · subst h; exact ⟨List.mem_cons_self a xs, hx⟩
        · exact ⟨List.mem_cons_of_mem _ h1, fun hs => h2 (List.mem_cons_of_mem _ hs)⟩
      · rintro ⟨h1, h2⟩
        rcases List.mem_cons.mp h1 with h | h
        · exact Or.inl h
        · by_cases hax : a = x
          · exact Or.inl hax
          · refine Or.inr ⟨h, fun hs => ?_⟩
            rcases List.mem_cons.mp hs with h' | h'
            · exact hax h'
            · exact h2 h'

theorem mem_filterDuplication (a : String) (l : List String) :
    a ∈ filterDuplication l ↔ a ∈ l := by
  rw [filterDuplication, mem_filterDuplicationAux]
  simp

theorem nodup_filterDuplicationAux :
    ∀ (l seen : List String), (filterDuplicationAux seen l).Nodup := by
  intro l
  induction l with
  | nil => intro seen; simp [filterDuplicationAux]
  | cons x xs ih =>
    intro seen
    simp only [filterDuplicationAux]
    split
    · exact ih seen
    · refine List.nodup_cons.mpr ⟨fun hmem => ?_, ih (x :: seen)⟩
      exact ((mem_filterDuplicationAux x xs (x :: seen)).mp hmem).2 (List.mem_cons_self x seen)

theorem nodup_filterDuplication (l : List String) : (filterDuplication l).Nodup :=
  nodup_filterDuplicationAux l []

theorem count_filterDuplication_of_mem (a : String) (l : List String) (h : a ∈ l) :
    (filterDuplication l).count a = 1 :=
  List.count_eq_one_of_mem (nodup_filterDuplication l) ((mem_filterDuplication a l).mpr h)

/-! ### Helper lemmas: the legacy graph walk -/

theorem walk_zero (db : List RoleRec) (ids names queried : List String) :
    Auth.getAllRolesNamesForRoleIds db 0 ids names queried = none := rfl

theorem walk_mono (db : List RoleRec) :
    ∀ (fuel : Nat) (ids names queried ns : List String),
      Auth.getAllRolesNamesForRoleIds db fuel ids names queried = some ns →
      ∀ n, n ∈ names → n ∈ ns := by
  intro fuel
  induction fuel with
  | zero =>
    intro ids names queried ns h
    rw [walk_zero] at h
    exact absurd h (by simp)
  | succ fuel ih =>
    intro ids names queried ns h n hn
    simp only [Auth.getAllRolesNamesForRoleIds] at h
    split at h
    · injection h with h2
      subst h2
      exact (mem_filterDuplication n names).mpr hn
    · split at h
      · injection h with h2
        subst h2
        exact (mem_filterDuplication n names).mpr hn
      · rw [Option.map_eq_some'] at h
        obtain ⟨ns', hrec, rfl⟩ := h
        exact (mem_filterDuplication n ns').mpr
          (ih _ _ _ _ hrec n (List.mem_append_left _ hn))

theorem walk_nodup (db : List RoleRec) (fuel : Nat) (ids names queried ns : List String)
    (h : Auth.getAllRolesNamesForRoleIds db fuel ids names queried = some ns) : ns.Nodup := by
  match fuel with
  | 0 =>
    rw [walk_zero] at h
    exact absurd h (by simp)
  | fuel + 1 =>
    simp only [Auth.getAllRolesNamesForRoleIds] at h
    split at h
    · injection h with h2; subst h2; exact nodup_filterDuplication _
    · split at h
      · injection h with h2; subst h2; exact nodup_filterDuplication _
      · rw [Option.map_eq_some'] at h
        obtain ⟨ns', _, rfl⟩ := h
        exact nodup_filterDuplication _
theorem walkMeasure_step (db : List RoleRec) (ids queried : List String)
    (a : String) (ha : a ∈ ids.filter (fun roleID => !queried.contains roleID))
    (ids2 : List String) (hsub : ∀ x, x ∈ ids2 → x ∈ db.map RoleRec.objectId) :
    walkMeasure db ids2 (queried ++ ids.filter (fun roleID => !queried.contains roleID)) <
      walkMeasure db ids queried := by
  have haids : a ∈ ids := (List.mem_filter.mp ha).1
  have hanq : a ∉ queried := by
    have := (List.mem_filter.mp ha).2
    simpa using this
  unfold walkMeasure
  apply Finset.card_lt_card
  have hsubset : (ids2.toFinset ∪ (db.map RoleRec.objectId).toFinset) \
        (queried ++ ids.filter (fun roleID => !queried.contains roleID)).toFinset ⊆
      (ids.toFinset ∪ (db.map RoleRec.objectId).toFinset) \ queried.toFinset := by
    intro x hx
    rw [Finset.mem_sdiff] at hx ⊢
    obtain ⟨hxu, hxq⟩ := hx
    refine ⟨?_, ?_⟩
    · rcases Finset.mem_union.mp hxu with hx2 | hx2
      · refine Finset.mem_union_right _ ?_
        rw [List.mem_toFinset] at hx2 ⊢
        exact hsub x hx2
      · exact Finset.mem_union_right _ hx2
    · intro hxq1
      apply hxq
      rw [List.mem_toFinset] at hxq1 ⊢
      exact List.mem_append_left _ hxq1
  rw [Finset.ssubset_iff_of_subset hsubset]
  refine ⟨a, ?_, ?_⟩
  · rw [Finset.mem_sdiff]
    refine ⟨Finset.mem_union_left _ (List.mem_toFinset.mpr haids), ?_⟩
    rw [List.mem_toFinset]
    exact hanq
  · rw [Finset.mem_sdiff]
    rintro ⟨-, hno⟩
    exact hno (List.mem_toFinset.mpr (List.mem_append_right _ ha))

theorem walk_total (db : List RoleRec) :
    ∀ (fuel : Nat) (ids names queried : List String),
      walkMeasure db ids queried < fuel →
      (Auth.getAllRolesNamesForRoleIds db fuel ids names queried).isSome := by
  intro fuel
  induction fuel with
  | zero => intro _ _ _ h; exact absurd h (by omega)
  | succ fuel ih =>
    intro ids names queried hm
    simp only [Auth.getAllRolesNamesForRoleIds]
    split
    · simp
    · split
      · simp
      · rename_i hins hres
        rw [Option.isSome_map']
        apply ih
        have hne : ids.filter (fun roleID => !queried.contains roleID) ≠ [] := by
          intro hnil
          rw [← List.isEmpty_iff] at hnil
          exact hins hnil
        obtain ⟨a, ha⟩ := List.exists_mem_of_ne_nil _ hne
        have hsub : ∀ x, x ∈ (db.filter (fun r => r.roles.any (fun m =>
              (ids.filter (fun roleID => !queried.contains roleID)).contains m))).map
                (fun r => r.objectId) → x ∈ db.map RoleRec.objectId := by
          intro x hx
          obtain ⟨r, hr, rfl⟩ := List.mem_map.mp hx
          exact List.mem_map.mpr ⟨r, List.mem_of_mem_filter hr, rfl⟩
        have hlt := walkMeasure_step db ids queried a ha _ hsub
        omega

theorem walkMeasure_le (db : List RoleRec) (ids queried : List String) :
    walkMeasure db ids queried ≤ ids.length + db.length := by
  unfold walkMeasure
  calc ((ids.toFinset ∪ (db.map RoleRec.objectId).toFinset) \ queried.toFinset).card
      ≤ (ids.toFinset ∪ (db.map RoleRec.objectId).toFinset).card :=
        Finset.card_le_card Finset.sdiff_subset
    _ ≤ ids.toFinset.card + (db.map RoleRec.objectId).toFinset.card :=
        Finset.card_union_le _ _
    _ ≤ ids.length + db.length := by
        have h1 := ids.toFinset_card_le
        have h2 := (db.map RoleRec.objectId).toFinset_card_le
        rw [List.length_map] at h2
        omega

theorem walk_complete (db : List RoleRec) :
    ∀ (fuel : Nat) (ids names queried ns : List String),
      (∀ j rr, j ∈ queried → rr ∈ db → j ∈ rr.roles →
        rr.name ∈ names ∧ (rr.objectId ∈ queried ∨ rr.objectId ∈ ids)) →
      Auth.getAllRolesNamesForRoleIds db fuel ids names queried = some ns →
      ∀ i r, (i ∈ ids ∨ i ∈ queried) → Reaches db i r → r.name ∈ ns := by
  intro fuel
  induction fuel with
  | zero =>
    intro ids names queried ns _ h
    rw [walk_zero] at h
    exact absurd h (by simp)
  | succ fuel ih =>
    intro ids names queried ns hq h i r hi hr
    simp only [Auth.getAllRolesNamesForRoleIds] at h
    split at h
    · rename_i hins
      injection h with h2
      subst h2
      have hsubq : ∀ j, j ∈ ids → j ∈ queried := by
        intro j hj
        by_contra hjq
        have hmemf : j ∈ ids.filter (fun roleID => !queried.contains roleID) := by
          rw [List.mem_filter]
          exact ⟨hj, by simpa using hjq⟩
        rw [List.isEmpty_iff] at hins
        rw [hins] at hmemf
        exact absurd hmemf (List.not_mem_nil j)
      have key : ∀ r', Reaches db i r' → r'.name ∈ names ∧ r'.objectId ∈ queried := by
        intro r' hr'
        induction hr' with
        | direct rr hrdb hir =>
          have hiq : i ∈ queried := hi.elim (hsubq i) id
          have hx := hq i rr hiq hrdb hir
          exact ⟨hx.1, hx.2.elim id (hsubq _)⟩
        | step rr rr' hrr hrdb hmm ihs =>
          have hx := hq rr.objectId rr' ihs.2 hrdb hmm
          exact ⟨hx.1, hx.2.elim id (hsubq _)⟩
      exact (mem_filterDuplication _ _).mpr (key r hr).1
    · set ins := ids.filter (fun roleID => !queried.contains roleID) with hins_def
      set results := db.filter (fun r => r.roles.any (fun m => ins.contains m)) with hres_def
      split at h
      · rename_i hres
        injection h with h2
        subst h2
        have hstep1 : ∀ j rr, (j ∈ queried ∨ j ∈ ids) → rr ∈ db → j ∈ rr.roles →
            rr.name ∈ names ∧ (rr.objectId ∈ queried ∨ rr.objectId ∈ ids) := by
          intro j rr hj hrdb hjr
          rcases hj with hj | hj
          · exact hq j rr hj hrdb hjr
          · by_cases hjq : j ∈ queried
            · exact hq j rr hjq hrdb hjr
            · exfalso
              have hjin : j ∈ ins := by
                rw [hins_def, List.mem_filter]
                exact ⟨hj, by simpa using hjq⟩
              have hrmem : rr ∈ results := by
                rw [hres_def, List.mem_filter]
                refine ⟨hrdb, ?_⟩
                rw [List.any_eq_true]
                exact ⟨j, hjr, by simpa using hjin⟩
              rw [List.isEmpty_iff] at hres
              rw [hres] at hrmem
              exact absurd hrmem (List.not_mem_nil rr)
        have key : ∀ r', Reaches db i r' →
            r'.name ∈ names ∧ (r'.objectId ∈ queried ∨ r'.objectId ∈ ids) := by
          intro r' hr'
          induction hr' with
          | direct rr hrdb hir => exact hstep1 i rr hi.symm hrdb hir
          | step rr rr' hrr hrdb hmm ihs => exact hstep1 rr.objectId rr' ihs.2 hrdb hmm
        exact (mem_filterDuplication _ _).mpr (key r hr).1
      · rw [Option.map_eq_some'] at h
        obtain ⟨ns', hrec, rfl⟩ := h
        have hq2 : ∀ j rr, j ∈ queried ++ ins → rr ∈ db → j ∈ rr.roles →
            rr.name ∈ names ++ results.map (fun r => r.name) ∧
            (rr.objectId ∈ queried ++ ins ∨
             rr.objectId ∈ results.map (fun r => r.objectId)) := by
          intro j rr hj hrdb hjr
          rcases List.mem_append.mp hj with hj | hj
          · have hx := hq j rr hj hrdb hjr
            refine ⟨List.mem_append_left _ hx.1, Or.inl ?_⟩
            rcases hx.2 with h2 | h2
            · exact List.mem_append_left _ h2
            · by_cases h3 : rr.objectId ∈ queried
              · exact List.mem_append_left _ h3
              · refine List.mem_append_right _ ?_
                rw [hins_def, List.mem_filter]
                exact ⟨h2, by simpa using h3⟩
          · have hrmem : rr ∈ results := by
              rw [hres_def, List.mem_filter]
              refine ⟨hrdb, ?_⟩
              rw [List.any_eq_true]
              exact ⟨j, hjr, by simpa using hj⟩
            exact ⟨List.mem_append_right _ (List.mem_map.mpr ⟨rr, hrmem, rfl⟩),
                   Or.inr (List.mem_map.mpr ⟨rr, hrmem, rfl⟩)⟩
        have hi2 : i ∈ results.map (fun r => r.objectId) ∨ i ∈ queried ++ ins := by
          refine Or.inr ?_
          rcases hi with hi | hi
          · by_cases h3 : i ∈ queried
            · exact List.mem_append_left _ h3
            · refine List.mem_append_right _ ?_
              rw [hins_def, List.mem_filter]
              exact ⟨hi, by simpa using h3⟩
          · exact List.mem_append_left _ hi
        exact (mem_filterDuplication _ _).mpr (ih _ _ _ _ hq2 hrec i r hi2 hr)

theorem trace_fst (db : List RoleRec) :
    ∀ (fuel : Nat) (ids names queried : List String),
      (Auth.getAllRolesNamesTrace db fuel ids names queried).1 =
        Auth.getAllRolesNamesForRoleIds db fuel ids names queried := by
  intro fuel
  induction fuel with
  | zero => intro _ _ _; rfl
  | succ fuel ih =>
    intro ids names queried
    simp only [Auth.getAllRolesNamesTrace, Auth.getAllRolesNamesForRoleIds]
    split
    · rfl
    · split
      · rfl
      · rw [ih]

theorem trace_batches (db : List RoleRec) :
    ∀ (fuel : Nat) (ids names queried : List String),
      (∀ b, b ∈ (Auth.getAllRolesNamesTrace db fuel ids names queried).2 →
        ∀ x, x ∈ b → x ∉ queried) ∧
      List.Pairwise (fun b1 b2 => ∀ x, x ∈ b1 → x ∉ b2)
        (Auth.getAllRolesNamesTrace db fuel ids names queried).2 := by
  intro fuel
  induction fuel with
  | zero =>
    intro ids names queried
    exact ⟨by intro b hb; exact absurd hb (by simp [Auth.getAllRolesNamesTrace]),
           by simp [Auth.getAllRolesNamesTrace]⟩
  | succ fuel ih =>
    intro ids names queried
    simp only [Auth.getAllRolesNamesTrace]
    split
    · exact ⟨by intro b hb; exact absurd hb (by simp), by simp⟩
    · set ins := ids.filter (fun roleID => !queried.contains roleID) with hins_def
      set results := db.filter (fun r => r.roles.any (fun m => ins.contains m)) with hres_def
      have hinsq : ∀ x, x ∈ ins → x ∉ queried := by
        intro x hx
        rw [hins_def, List.mem_filter] at hx
        simpa using hx.2
      split
      · refine ⟨?_, by simp⟩
        intro b hb x hx
        rw [List.mem_singleton] at hb
        subst hb
        exact hinsq x hx
      · obtain ⟨hA, hP⟩ := ih (results.map (fun r => r.objectId))
          (names ++ results.map (fun r => r.name)) (queried ++ ins)
        constructor
        · intro b hb x hx
          rcases List.mem_cons.mp hb with rfl | hb
          · exact hinsq x hx
          · intro hxq
            exact hA b hb x hx (List.mem_append_left _ hxq)
        · refine List.pairwise_cons.mpr ⟨?_, hP⟩
          intro b hb x hx hxb
          exact hA b hb x hxb (List.mem_append_right _ hx)

/-! ### Helper lemma: characterisation of the mode switch -/

theorem isNewRoleEnabled_char (defs : List RoleDef) :
    isNewRoleEnabled defs = true ↔
      ∃ pre r post, defs = pre ++ r :: post ∧ (∀ d, d ∈ pre → d.role ≠ "root") ∧
        r.role = "root" ∧ r.permissions.head? = some "all" := by
  induction defs with
  | nil =>
    constructor
    · intro h
      exact absurd h (by simp [isNewRoleEnabled])
    · rintro ⟨pre, r, post, h, -, -, -⟩
      simp at h
  | cons d ds ih =>
    by_cases hd : d.role = "root"
    · have hde : (d.role == "root") = true := by simpa using hd
      constructor
      · intro h
        refine ⟨[], d, ds, by simp, by simp, hd, ?_⟩
        simpa [isNewRoleEnabled, List.find?_cons, hde] using h
      · rintro ⟨pre, r, post, heq, hpre, hr, hh⟩
        cases pre with
        | nil =>
          simp only [List.nil_append, List.cons.injEq] at heq
          obtain ⟨rfl, rfl⟩ := heq
          simp [isNewRoleEnabled, List.find?_cons, hde, hh]
        | cons p pre' =>
          simp only [List.cons_append, List.cons.injEq] at heq
          obtain ⟨rfl, -⟩ := heq
          exact absurd hd (hpre d (List.mem_cons_self d pre'))
    · have hde : (d.role == "root") = false := by simpa using hd
      have hiso : isNewRoleEnabled (d :: ds) = isNewRoleEnabled ds := by
        simp [isNewRoleEnabled, List.find?_cons, hde]
      rw [hiso, ih]
      constructor
      · rintro ⟨pre, r, post, heq, hpre, hr, hh⟩
        refine ⟨d :: pre, r, post, by rw [heq]; rfl, ?_, hr, hh⟩
        intro d' hd'
        rcases List.mem_cons.mp hd' with rfl | hd'
        · exact hd
        · exact hpre d' hd'
      · rintro ⟨pre, r, post, heq, hpre, hr, hh⟩
        cases pre with
        | nil =>
          simp only [List.nil_append, List.cons.injEq] at heq
          obtain ⟨rfl, -⟩ := heq
          exact absurd hr hd
        | cons p pre' =>
          simp only [List.cons_append, List.cons.injEq] at heq
          obtain ⟨-, rfl⟩ := heq
          exact ⟨pre', r, post, rfl, fun d' hd' => hpre d' (List.mem_cons_of_mem _ hd'), hr, hh⟩

/-! ### The claims -/

/-- C2 counterexample: the definitions list
`[{role:"root", permissions:["x"]}, {role:"root", permissions:["all"]}]`
contains an entry whose role is "root" and whose permissions equal exactly
`["all"]` — the claim's predicate holds — yet `isNewRoleEnabled` only
inspects the *first* root entry and selects legacy mode. -/
theorem claim2_counterexample :
    specRootAllPresent [⟨"root", ["x"]⟩, ⟨"root", ["all"]⟩] = true ∧
    isNewRoleEnabled [⟨"root", ["x"]⟩, ⟨"root", ["all"]⟩] = false := by
  constructor
  · rfl
  · rfl

/-- C2 (amended): custom mode is selected iff the *first* definition
whose role is "root" exists and the *first* element of its permissions
list is "all" (later root entries and trailing permissions are ignored);
when that test fails, `getUserRoles` dispatches to the flat role-tree
resolver `_loadRoles`. -/
theorem claim2_mode_selection_amended :
    (∀ defs : List RoleDef,
      isNewRoleEnabled defs = true ↔
        ∃ pre r post, defs = pre ++ r :: post ∧ (∀ d, d ∈ pre → d.role ≠ "root") ∧
          r.role = "root" ∧ r.permissions.head? = some "all") ∧
    (∀ (env : Env) (auth : AuthRec) (u : UserRec) (st : AuthState) (cn : String)
        (d q rq : Option ReqObj) (fuel : Nat),
      isNewRoleEnabled env.roleDefs = false →
      auth.isMaster = false → auth.user = some u →
      st.fetchedRoles = false → st.rolePromise = none →
      Auth.getUserRolesRun env auth st cn d q rq fuel =
        some ((Auth.loadRoles env u.id [] st).1, (Auth.loadRoles env u.id [] st).2.1,
          "UBRoleDefinition" :: (Auth.loadRoles env u.id [] st).2.2)) := by
  constructor
  · exact isNewRoleEnabled_char
  · intro env auth u st cn d q rq fuel hmode hmaster huser hfr hrp
    simp [Auth.getUserRolesRun, hmaster, huser, hfr, hrp, hmode]

/-- C2 witness: a concrete legacy-mode deployment (no root/all sentinel)
dispatches to the flat role-tree resolver. -/
theorem claim2_mode_selection_amended_witness :
    Auth.getUserRolesRun { roleDefs := [⟨"student", ["Post-read"]⟩] }
        ⟨false, some ⟨"u1", none⟩⟩ {} "Post" none none none 1 =
      some ((Auth.loadRoles { roleDefs := [⟨"student", ["Post-read"]⟩] } "u1" [] {}).1,
        (Auth.loadRoles { roleDefs := [⟨"student", ["Post-read"]⟩] } "u1" [] {}).2.1,
        "UBRoleDefinition" ::
          (Auth.loadRoles { roleDefs := [⟨"student", ["Post-read"]⟩] } "u1" [] {}).2.2) :=
  claim2_mode_selection_amended.2 { roleDefs := [⟨"student", ["Post-read"]⟩] }
    ⟨false, some ⟨"u1", none⟩⟩ ⟨"u1", none⟩ {} "Post" none none none 1
    (by rfl) rfl rfl rfl rfl

/-- C3 (code bug): `_queryByClassName` wraps the executor in
`new Promise(resolve => ...)` with no rejection handler, so a data-store
failure is not propagated to the caller — the returned promise never
settles (it is neither rejected with the original error nor resolved). -/
theorem claim3_query_failure_swallowed (e : ParseError) (rs : List ClassRoomUserRec) :
    queryByClassName ClassRoomUserRec (Except.error e) = POutcome.pending ∧
    queryByClassName ClassRoomUserRec (Except.error e) ≠ POutcome.rejected e ∧
    queryByClassName ClassRoomUserRec (Except.error e) ≠ POutcome.resolved rs := by
  refine ⟨rfl, ?_, ?_⟩
  · intro h
    simp [queryByClassName] at h
  · intro h
    simp [queryByClassName] at h

/-- C7: in custom mode, a "student" membership whose definition maps
"Post-read" yields exactly the token `role:Post-sp1-read` (no `-write`
token); an "instructor" membership whose definition maps "Post-create"
and "Post-update" yields `role:Post-sp1-write` exactly once after
deduplication. -/
theorem claim7_token_mapping :
    Auth.loadCustomRoles [⟨"u1", "sp1", "student"⟩] "u1" [] [⟨"student", ["Post-read"]⟩]
        "Post" "sp1" false = Except.ok ["role:Post-sp1-read"] ∧
    ("role:Post-sp1-read" ∈ (["role:Post-sp1-read"] : List String) ∧
      "role:Post-sp1-write" ∉ (["role:Post-sp1-read"] : List String)) ∧
    Auth.loadCustomRoles [⟨"u2", "sp1", "instructor"⟩] "u2" []
        [⟨"instructor", ["Post-create", "Post-update"]⟩] "Post" "sp1" true =
      Except.ok ["role:Post-sp1-write"] ∧
    (["role:Post-sp1-write"] : List String).count "role:Post-sp1-write" = 1 := by
  refine ⟨by decide, ⟨by decide, by decide⟩, by decide, by decide⟩

/-- C8: with applicable definitions and a resolved space, an empty
space-membership query result makes `_loadCustomRoles` reject with
OPERATION_FORBIDDEN naming the user and the space, for every class name
and independently of the create flag. -/
theorem claim8_no_standing (classRoomUsers : List ClassRoomUserRec) (userId : String)
    (userRoles : List String) (classRoles : List RoleDef) (className spacePointer : String)
    (isCreate : Bool)
    (hmem : membershipResults classRoomUsers userId spacePointer = []) :
    Auth.loadCustomRoles classRoomUsers userId userRoles classRoles className
        spacePointer isCreate =
      Except.error ⟨OPERATION_FORBIDDEN,
        "User " ++ userId ++ " is not allowed to access space " ++ spacePointer⟩ := by
  simp [Auth.loadCustomRoles, hmem]

/-- C8 witness at a concrete empty membership table. -/
theorem claim8_no_standing_witness :
    Auth.loadCustomRoles [] "u1" [] [⟨"student", ["Post-read"]⟩] "Post" "sp1" true =
      Except.error ⟨OPERATION_FORBIDDEN,
        "User " ++ "u1" ++ " is not allowed to access space " ++ "sp1"⟩ :=
  claim8_no_standing [] "u1" [] [⟨"student", ["Post-read"]⟩] "Post" "sp1" true rfl

/-- C10: with a non-empty `user.userRoles`, the module-level helper
appends the raw user id to the flattened permissions, so the transformed
global token list contains `role:<userId>` (for a dash-free id); with
`userRoles` absent or empty, the global token list is empty. -/
theorem claim10_userid_token (allCustomRoles : List RoleDef) (userId : String)
    (uRoles : List String) (hne : uRoles ≠ [])
    (hdash : jsSplitDash userId = [userId]) :
    ("role:" ++ userId) ∈ transformUserRoles (getUserRoles allCustomRoles (some uRoles) userId) ∧
    transformUserRoles (getUserRoles allCustomRoles none userId) = [] ∧
    transformUserRoles (getUserRoles allCustomRoles (some []) userId) = [] := by
  refine ⟨?_, rfl, rfl⟩
  have hne' : uRoles.isEmpty = false := by
    cases uRoles with
    | nil => exact absurd rfl hne
    | cons a l => rfl
  simp only [getUserRoles, hne', Bool.false_eq_true, if_false]
  simp only [transformUserRoles]
  apply (mem_filterDuplication _ _).mpr
  apply List.mem_map.mpr
  refine ⟨userId, List.mem_append_right _ (List.mem_singleton.mpr rfl), ?_⟩
  simp [hdash]

/-- C10 witness: a user with one (unmatched) custom role and dash-free id
"u1" receives the global token `role:u1`. -/
theorem claim10_userid_token_witness :
    ("role:" ++ "u1") ∈ transformUserRoles (getUserRoles [] (some ["x"]) "u1") :=
  (claim10_userid_token [] "u1" ["x"] (by simp) (by decide)).1

/-- C1: with applicable class definitions, a resolved space and at least
one membership record, a create request (no objectId in data or query)
with no create-derived surviving token is rejected with
OPERATION_FORBIDDEN naming the user and the class; with an objectId
present in data or query, `isCreateRequest` is false and the same inputs
resolve successfully — the create check never fires. -/
theorem claim1_create_gating (classRoomUsers : List ClassRoomUserRec) (userId : String)
    (userRoles : List String) (classRoles : List RoleDef) (className spacePointer : String)
    (data query : Option ReqObj)
    (hmem : membershipResults classRoomUsers userId spacePointer ≠ [])
    (hnc : canCreateOf (survivingClassTokens classRoomUsers userId spacePointer
      classRoles className) = false) :
    (isCreateRequest data query = true →
      Auth.loadCustomRoles classRoomUsers userId userRoles classRoles className spacePointer
          (isCreateRequest data query) =
        Except.error ⟨OPERATION_FORBIDDEN,
          "User " ++ userId ++ " is not allowed to create new object in " ++ className⟩) ∧
    ((strTruthy (data.bind ReqObj.objectId) || strTruthy (query.bind ReqObj.objectId)) = true →
      isCreateRequest data query = false ∧
      Auth.loadCustomRoles classRoomUsers userId userRoles classRoles className spacePointer
          (isCreateRequest data query) =
        Except.ok (filterDuplication ((survivingClassTokens classRoomUsers userId spacePointer
          classRoles className).map (fun uR => uR.role)) ++ userRoles)) := by
  have hmemE : (membershipResults classRoomUsers userId spacePointer).isEmpty = false := by
    cases h : (membershipResults classRoomUsers userId spacePointer).isEmpty
    · rfl
    · rw [List.isEmpty_iff] at h
      exact absurd h hmem
  constructor
  · intro hcr
    simp [Auth.loadCustomRoles, hmemE, hcr, hnc]
  · intro hobj
    have hicr : isCreateRequest data query = false := by
      cases h1 : strTruthy (data.bind ReqObj.objectId) with
      | true =>
        have hd : data.isNone = false := by
          cases data with
          | none => simp [strTruthy] at h1
          | some o => rfl
        simp [isCreateRequest, h1, hd]
      | false =>
        have h2 : strTruthy (query.bind ReqObj.objectId) = true := by
          rw [h1] at hobj
          simpa using hobj
        have hq : query.isNone = false := by
          cases query with
          | none => simp [strTruthy] at h2
          | some o => rfl
        simp [isCreateRequest, h2, hq]
    refine ⟨hicr, ?_⟩
    simp [Auth.loadCustomRoles, hmemE, hicr]

/-- C1 witness: user "u1" holds role "teacher" in space "sp1", the
definition grants only "Post-read" — on a create request (no objectId
anywhere) the custom loader rejects with the create-gating error. -/
theorem claim1_create_gating_witness :
    Auth.loadCustomRoles [⟨"u1", "sp1", "teacher"⟩] "u1" [] [⟨"teacher", ["Post-read"]⟩]
        "Post" "sp1" (isCreateRequest none none) =
      Except.error ⟨OPERATION_FORBIDDEN,
        "User " ++ "u1" ++ " is not allowed to create new object in " ++ "Post"⟩ :=
  (claim1_create_gating [⟨"u1", "sp1", "teacher"⟩] "u1" [] [⟨"teacher", ["Post-read"]⟩]
    "Post" "sp1" none none (by decide) (by decide)).1 (by decide)

/-- C5 counterexample: with both `data.post` (→ Post "p1", whose chase
would yield space "S-p") and `query.objectId` (→ Comment "q1", whose
chase yields "S-q") present, `getSpacePointer` starts the chase from the
*query* target, not from `data.post` as the claim states. -/
theorem claim5_counterexample :
    getSpacePointer [⟨"Comment", "q1", some "S-q", none⟩, ⟨"Post", "p1", some "S-p", none⟩] 5
        "Comment" (some { post := some ⟨"Post", "p1"⟩ }) (some { objectId := some "q1" }) none =
      some (some "S-q") ∧
    queryToSpace [⟨"Comment", "q1", some "S-q", none⟩, ⟨"Post", "p1", some "S-p", none⟩] 5
        "Post" "p1" = some (some "S-p") ∧
    (some (some "S-q") : Option (Option String)) ≠ some (some "S-p") := by
  refine ⟨by decide, by decide, by decide⟩

/-- C5 (amended): `data.classRoom` wins, then `restQuery.classRoom`;
among the remaining three rules the *last* applicable assignment wins —
`query.objectId` (with `className`) over `(itemType, itemId)` over
`data.post` — and when no rule applies the promise resolves with no
space. -/
theorem claim5_space_precedence_amended (db : List DbObj) (fuel : Nat) (className : String)
    (data query restQuery : Option ReqObj) :
    (∀ cr, data.bind ReqObj.classRoom = some cr →
      getSpacePointer db fuel className data query restQuery = some (some cr)) ∧
    (data.bind ReqObj.classRoom = none → ∀ cr, restQuery.bind ReqObj.classRoom = some cr →
      getSpacePointer db fuel className data query restQuery = some (some cr)) ∧
    (data.bind ReqObj.classRoom = none → restQuery.bind ReqObj.classRoom = none →
      ∀ qid, query.bind ReqObj.objectId = some qid → qid.isEmpty = false →
      className.isEmpty = false →
      getSpacePointer db fuel className data query restQuery =
        queryToSpace db fuel className qid) ∧
    (data.bind ReqObj.classRoom = none → restQuery.bind ReqObj.classRoom = none →
      strTruthy (query.bind ReqObj.objectId) = false →
      ∀ it ii, data.bind ReqObj.itemType = some it → data.bind ReqObj.itemId = some ii →
      it.isEmpty = false → ii.isEmpty = false →
      getSpacePointer db fuel className data query restQuery = queryToSpace db fuel it ii) ∧
    (data.bind ReqObj.classRoom = none → restQuery.bind ReqObj.classRoom = none →
      strTruthy (query.bind ReqObj.objectId) = false →
      (strTruthy (data.bind ReqObj.itemType) && strTruthy (data.bind ReqObj.itemId)) = false →
      ∀ p, data.bind ReqObj.post = some p → p.objectId.isEmpty = false →
      p.className.isEmpty = false →
      getSpacePointer db fuel className data query restQuery =
        queryToSpace db fuel p.className p.objectId) ∧
    (data.bind ReqObj.classRoom = none → restQuery.bind ReqObj.classRoom = none →
      strTruthy (query.bind ReqObj.objectId) = false →
      (strTruthy (data.bind ReqObj.itemType) && strTruthy (data.bind ReqObj.itemId)) = false →
      (∀ p, data.bind ReqObj.post = some p → p.objectId.isEmpty = true) →
      getSpacePointer db fuel className data query restQuery = some none) := by
  refine ⟨?_, ?_, ?_, ?_, ?_, ?_⟩
  · intro cr h
    simp [getSpacePointer, h]
  · intro h1 cr h2
    simp [getSpacePointer, h1, h2]
  · intro h1 h2 qid h3 h4 h5
    simp [getSpacePointer, h1, h2, h3, strTruthy, h4, h5]
  · intro h1 h2 h3 it ii h4 h5 h6 h7
    simp only [getSpacePointer, h1, h2, h3, h4, h5]
    simp [strTruthy, h6, h7]
  · intro h1 h2 h3 h4 p h5 h6 h7
    simp [getSpacePointer, h1, h2, h3, h4, h5, h6, h7]
  · intro h1 h2 h3 h4 hpost
    cases hdp : data.bind ReqObj.post with
    | none => simp [getSpacePointer, h1, h2, h3, h4, hdp]
    | some p =>
      have hp := hpost p hdp
      simp [getSpacePointer, h1, h2, h3, h4, hdp, hp]

/-- C5 witness: the query-target rule applied at the counterexample's
inputs — the chase starts at (Comment, "q1"). -/
theorem claim5_space_precedence_amended_witness :
    getSpacePointer [⟨"Comment", "q1", some "S-q", none⟩, ⟨"Post", "p1", some "S-p", none⟩] 5
        "Comment" (some { post := some ⟨"Post", "p1"⟩ }) (some { objectId := some "q1" }) none =
      queryToSpace [⟨"Comment", "q1", some "S-q", none⟩, ⟨"Post", "p1", some "S-p", none⟩] 5
        "Comment" "q1" :=
  (claim5_space_precedence_amended
      [⟨"Comment", "q1", some "S-q", none⟩, ⟨"Post", "p1", some "S-p", none⟩] 5 "Comment"
      (some { post := some ⟨"Post", "p1"⟩ }) (some { objectId := some "q1" }) none).2.2.1
    rfl rfl "q1" rfl (by decide) (by decide)

/-- C6: the legacy parent-role walk, on any stored graph (cycles
included), terminates within a fuel bound linear in the input, returns a
duplicate-free list, contains every reachable role's name exactly once
and every initially supplied name exactly once, and never re-queries an
already queried role id in a later round (the traced query batches are
pairwise disjoint). -/
theorem claim6_graph_walk (db : List RoleRec) (ids names0 : List String) (fuel : Nat)
    (hfuel : ids.length + db.length < fuel) :
    (Auth.getAllRolesNamesForRoleIds db fuel ids names0 []).isSome ∧
    (∀ ns, Auth.getAllRolesNamesForRoleIds db fuel ids names0 [] = some ns → ns.Nodup) ∧
    (∀ ns i r, Auth.getAllRolesNamesForRoleIds db fuel ids names0 [] = some ns →
      i ∈ ids → Reaches db i r → ns.count r.name = 1) ∧
    (∀ ns n, Auth.getAllRolesNamesForRoleIds db fuel ids names0 [] = some ns →
      n ∈ names0 → ns.count n = 1) ∧
    (Auth.getAllRolesNamesTrace db fuel ids names0 []).1 =
      Auth.getAllRolesNamesForRoleIds db fuel ids names0 [] ∧
    List.Pairwise (fun b1 b2 => ∀ x, x ∈ b1 → x ∉ b2)
      (Auth.getAllRolesNamesTrace db fuel ids names0 []).2 := by
  refine ⟨walk_total db fuel ids names0 []
      (lt_of_le_of_lt (walkMeasure_le db ids []) hfuel),
    fun ns h => walk_nodup db fuel ids names0 [] ns h, ?_, ?_,
    trace_fst db fuel ids names0 [], (trace_batches db fuel ids names0 []).2⟩
  · intro ns i r h hi hr
    have hmem := walk_complete db fuel ids names0 [] ns
      (by intro j rr hj hrr hjr; exact absurd hj (List.not_mem_nil j)) h i r (Or.inl hi) hr
    exact List.count_eq_one_of_mem (walk_nodup db fuel ids names0 [] ns h) hmem
  · intro ns n h hn
    exact List.count_eq_one_of_mem (walk_nodup db fuel ids names0 [] ns h)
      (walk_mono db fuel ids names0 [] ns h n hn)

/-- C6 witness: the two-role cycle A ∈ B, B ∈ A started from A's id
terminates and lists each role name exactly once. -/
theorem claim6_graph_walk_witness :
    Auth.getAllRolesNamesForRoleIds [⟨"a", "A", [], ["b"]⟩, ⟨"b", "B", [], ["a"]⟩] 4
        ["a"] ["A"] [] = some ["A", "B"] ∧
    (["A", "B"] : List String).count "B" = 1 ∧
    (["A", "B"] : List String).count "A" = 1 := by
  refine ⟨by decide, ?_, ?_⟩
  · exact (claim6_graph_walk [⟨"a", "A", [], ["b"]⟩, ⟨"b", "B", [], ["a"]⟩] ["a"] ["A"] 4
      (by decide)).2.2.1 ["A", "B"] "a" ⟨"b", "B", [], ["a"]⟩ (by decide) (by decide)
      (Reaches.direct ⟨"b", "B", [], ["a"]⟩ (by decide) (by decide))
  · exact (claim6_graph_walk [⟨"a", "A", [], ["b"]⟩, ⟨"b", "B", [], ["a"]⟩] ["a"] ["A"] 4
      (by decide)).2.2.2.1 ["A", "B"] "A" (by decide) (by decide)

/-! ### Helper lemmas: the entry-point run -/

theorem loadRoles_spec (env : Env) (userId : String) (uRoles : List String) (st : AuthState) :
    (Auth.loadRoles env userId uRoles st).2.1 =
      Except.ok (Auth.loadRoles env userId uRoles st).1.userRoles ∧
    (Auth.loadRoles env userId uRoles st).1.fetchedRoles = true := by
  unfold Auth.loadRoles
  cases h : env.cacheGet userId with
  | some c => simp
  | none =>
    simp only []
    split
    · simp
    · simp

theorem fallback_ok_spec (env : Env) (u : UserRec) (st : AuthState) (cn : String)
    (tU uR : List String) (isC : Bool) (st' : AuthState) (toks log : List String)
    (h : Auth.getUserRolesFallback env u st cn tU uR isC = (st', Except.ok toks, log)) :
    st'.fetchedRoles = true ∧ st'.userRoles = toks := by
  simp only [Auth.getUserRolesFallback] at h
  split at h
  · simp only [Prod.mk.injEq] at h
    exact absurd h.2.1 (by simp)
  · obtain ⟨hs1, hs2⟩ := loadRoles_spec env u.id tU st
    simp only [Prod.mk.injEq] at h
    obtain ⟨h1, h2, -⟩ := h
    rw [hs1] at h2
    simp only [Except.ok.injEq] at h2
    rw [← h1]
    exact ⟨hs2, h2⟩

theorem fallback_error_spec (env : Env) (u : UserRec) (st : AuthState) (cn : String)
    (tU uR : List String) (isC : Bool) (st' : AuthState) (e : ParseError) (log : List String)
    (h : Auth.getUserRolesFallback env u st cn tU uR isC = (st', Except.error e, log)) :
    st' = st := by
  simp only [Auth.getUserRolesFallback] at h
  split at h
  · simp only [Prod.mk.injEq] at h
    exact h.1.symm
  · obtain ⟨hs1, -⟩ := loadRoles_spec env u.id tU st
    simp only [Prod.mk.injEq] at h
    rw [hs1] at h
    exact absurd h.2.1 (by simp)

theorem run_ok_idempotent (env : Env) (auth : AuthRec) (st : AuthState) (cn : String)
    (d q rq : Option ReqObj) (fuel : Nat) (st' : AuthState) (toks log : List String)
    (h : Auth.getUserRolesRun env auth st cn d q rq fuel = some (st', Except.ok toks, log)) :
    Auth.getUserRolesRun env auth st' cn d q rq fuel = some (st', Except.ok toks, []) := by
  by_cases hmu : (auth.isMaster || auth.user.isNone) = true
  · rw [Auth.getUserRolesRun, if_pos hmu] at h
    simp only [Option.some.injEq, Prod.mk.injEq, Except.ok.injEq] at h
    obtain ⟨rfl, rfl, rfl⟩ := h
    rw [Auth.getUserRolesRun, if_pos hmu]
  · have hgate : ∀ (s2 : AuthState) (t2 : List String), s2.fetchedRoles = true →
        s2.userRoles = t2 →
        Auth.getUserRolesRun env auth s2 cn d q rq fuel = some (s2, Except.ok t2, []) := by
      intro s2 t2 hf ht
      rw [Auth.getUserRolesRun, if_neg hmu, if_pos hf, ht]
    by_cases hfr : st.fetchedRoles = true
    · rw [Auth.getUserRolesRun, if_neg hmu, if_pos hfr] at h
      simp only [Option.some.injEq, Prod.mk.injEq, Except.ok.injEq] at h
      obtain ⟨rfl, rfl, rfl⟩ := h
      exact hgate st st.userRoles hfr rfl
    · rw [Auth.getUserRolesRun, if_neg hmu, if_neg hfr] at h
      cases hrp : st.rolePromise with
      | some p =>
        simp only [hrp] at h
        simp only [Option.some.injEq, Prod.mk.injEq] at h
        obtain ⟨rfl, rfl, rfl⟩ := h
        rw [Auth.getUserRolesRun, if_neg hmu, if_neg hfr, hrp]
      | none =>
        simp only [hrp] at h
        by_cases hmode : isNewRoleEnabled env.roleDefs = true
        · simp only [hmode, Bool.not_true, Bool.false_eq_true, if_false] at h
          split at h
          · exact absurd h (by simp)
          · split at h
            · -- space pointer present: custom or fallback
              split at h
              · -- applicable class definitions: the custom loader
                split at h
                · rename_i toks' hlc
                  simp only [Option.some.injEq, Prod.mk.injEq, Except.ok.injEq] at h
                  obtain ⟨rfl, rfl, rfl⟩ := h
                  exact hgate _ _ rfl rfl
                · rename_i e hlc
                  simp only [Option.some.injEq, Prod.mk.injEq] at h
                  exact absurd h.2.1 (by simp)
              · simp only [Option.some.injEq] at h
                obtain ⟨hf1, hf2⟩ := fallback_ok_spec _ _ _ _ _ _ _ _ _ _ h
                exact hgate st' toks hf1 hf2
            · simp only [Option.some.injEq] at h
              obtain ⟨hf1, hf2⟩ := fallback_ok_spec _ _ _ _ _ _ _ _ _ _ h
              exact hgate st' toks hf1 hf2
        · have hmode' : isNewRoleEnabled env.roleDefs = false := by
            cases hb : isNewRoleEnabled env.roleDefs
            · rfl
            · exact absurd hb hmode
          simp only [hmode', Bool.not_false, if_true] at h
          simp only [Option.some.injEq, Prod.mk.injEq] at h
          obtain ⟨h1, h2, -⟩ := h
          obtain ⟨hs1, hs2⟩ := loadRoles_spec env (auth.user.getD { id := "" }).id [] st
          rw [hs1] at h2
          simp only [Except.ok.injEq] at h2
          rw [← h1]
          exact hgate _ toks hs2 h2

/-- C4 counterexample: in custom mode with a resolvable space and no
membership record, the first call rejects with OPERATION_FORBIDDEN and
*leaves the rejected promise stored in `rolePromise`* (second conjunct:
it is not cleared); the follow-up call returns that same stored failed
promise with zero backend queries instead of retrying. -/
theorem claim4_counterexample :
    Auth.getUserRolesRun
        { roleDefs := [⟨"root", ["all"]⟩, ⟨"student", ["Post-read"]⟩] }
        ⟨false, some ⟨"u1", none⟩⟩ {} "Post" (some { classRoom := some "sp1" }) none none 1 =
      some ({ userRoles := [], fetchedRoles := false,
              rolePromise := some (Except.error ⟨OPERATION_FORBIDDEN,
                "User u1 is not allowed to access space sp1"⟩) },
        Except.error ⟨OPERATION_FORBIDDEN, "User u1 is not allowed to access space sp1"⟩,
        ["UBRoleDefinition", "UBClassRoomUser"]) ∧
    (some (Except.error (⟨OPERATION_FORBIDDEN,
        "User u1 is not allowed to access space sp1"⟩ : ParseError)) ≠
      (none : Option (Except ParseError (List String)))) ∧
    Auth.getUserRolesRun
        { roleDefs := [⟨"root", ["all"]⟩, ⟨"student", ["Post-read"]⟩] }
        ⟨false, some ⟨"u1", none⟩⟩
        { userRoles := [], fetchedRoles := false,
          rolePromise := some (Except.error ⟨OPERATION_FORBIDDEN,
            "User u1 is not allowed to access space sp1"⟩) }
        "Post" (some { classRoom := some "sp1" }) none none 1 =
      some ({ userRoles := [], fetchedRoles := false,
              rolePromise := some (Except.error ⟨OPERATION_FORBIDDEN,
                "User u1 is not allowed to access space sp1"⟩) },
        Except.error ⟨OPERATION_FORBIDDEN, "User u1 is not allowed to access space sp1"⟩,
        []) := by
  refine ⟨by decide, by decide, by decide⟩

/-- C4 (amended): a failed resolution never sets `fetchedRoles` and
propagates the rejection, but `rolePromise` is cleared only on the
fallback path (whose throw precedes the assignment): a rejection coming
from `_loadCustomRoles` leaves `rolePromise` holding the rejected
promise, and a subsequent call returns that stored failed promise with no
backend queries instead of starting a fresh resolution. -/
theorem claim4_failure_state_amended (env : Env) (auth : AuthRec) (st : AuthState) (cn : String)
    (d q rq : Option ReqObj) (fuel : Nat) (st' : AuthState) (e : ParseError) (log : List String)
    (hfr : st.fetchedRoles = false) (hrp : st.rolePromise = none)
    (h : Auth.getUserRolesRun env auth st cn d q rq fuel = some (st', Except.error e, log)) :
    st'.fetchedRoles = false ∧
    ((st' = st ∧ st'.rolePromise = none) ∨
      (st'.rolePromise = some (Except.error e) ∧
        Auth.getUserRolesRun env auth st' cn d q rq fuel = some (st', Except.error e, []))) := by
  by_cases hmu : (auth.isMaster || auth.user.isNone) = true
  · rw [Auth.getUserRolesRun, if_pos hmu] at h
    simp only [Option.some.injEq, Prod.mk.injEq] at h
    exact absurd h.2.1 (by simp)
  · have hfr' : ¬st.fetchedRoles = true := by simp [hfr]
    rw [Auth.getUserRolesRun, if_neg hmu, if_neg hfr'] at h
    simp only [hrp] at h
    by_cases hmode : isNewRoleEnabled env.roleDefs = true
    · simp only [hmode, Bool.not_true, Bool.false_eq_true, if_false] at h
      split at h
      · exact absurd h (by simp)
      · split at h
        · split at h
          · split at h
            · simp only [Option.some.injEq, Prod.mk.injEq] at h
              exact absurd h.2.1 (by simp)
            · rename_i e' hlc
              simp only [Option.some.injEq, Prod.mk.injEq, Except.error.injEq] at h
              obtain ⟨rfl, rfl, rfl⟩ := h
              refine ⟨hfr, Or.inr ⟨rfl, ?_⟩⟩
              rw [Auth.getUserRolesRun, if_neg hmu, if_neg (by simp [hfr])]
          · simp only [Option.some.injEq] at h
            have hst := fallback_error_spec _ _ _ _ _ _ _ _ _ _ h
            subst hst
            exact ⟨hfr, Or.inl ⟨rfl, hrp⟩⟩
        · simp only [Option.some.injEq] at h
          have hst := fallback_error_spec _ _ _ _ _ _ _ _ _ _ h
          subst hst
          exact ⟨hfr, Or.inl ⟨rfl, hrp⟩⟩
    · have hmode' : isNewRoleEnabled env.roleDefs = false := by
        cases hb : isNewRoleEnabled env.roleDefs
        · rfl
        · exact absurd hb hmode
      simp only [hmode', Bool.not_false, if_true] at h
      simp only [Option.some.injEq, Prod.mk.injEq] at h
      obtain ⟨hs1, -⟩ := loadRoles_spec env (auth.user.getD { id := "" }).id [] st
      rw [hs1] at h
      exact absurd h.2.1 (by simp)

/-- C4 witness: the amended statement applied at the counterexample's
inputs — the failure lands in the right disjunct (stored rejected
promise, second call replays it with no queries). -/
theorem claim4_failure_state_amended_witness :
    ({ userRoles := [], fetchedRoles := false,
       rolePromise := some (Except.error ⟨OPERATION_FORBIDDEN,
         "User u1 is not allowed to access space sp1"⟩) } : AuthState).fetchedRoles = false ∧
    (({ userRoles := [], fetchedRoles := false,
        rolePromise := some (Except.error ⟨OPERATION_FORBIDDEN,
          "User u1 is not allowed to access space sp1"⟩) } : AuthState) = {} ∧
      ({ userRoles := [], fetchedRoles := false,
         rolePromise := some (Except.error ⟨OPERATION_FORBIDDEN,
           "User u1 is not allowed to access space sp1"⟩) } : AuthState).rolePromise = none ∨
      (({ userRoles := [], fetchedRoles := false,
          rolePromise := some (Except.error ⟨OPERATION_FORBIDDEN,
            "User u1 is not allowed to access space sp1"⟩) } : AuthState).rolePromise =
          some (Except.error ⟨OPERATION_FORBIDDEN,
            "User u1 is not allowed to access space sp1"⟩) ∧
        Auth.getUserRolesRun
          { roleDefs := [⟨"root", ["all"]⟩, ⟨"student", ["Post-read"]⟩] }
          ⟨false, some ⟨"u1", none⟩⟩
          { userRoles := [], fetchedRoles := false,
            rolePromise := some (Except.error ⟨OPERATION_FORBIDDEN,
              "User u1 is not allowed to access space sp1"⟩) }
          "Post" (some { classRoom := some "sp1" }) none none 1 =
        some ({ userRoles := [], fetchedRoles := false,
                rolePromise := some (Except.error ⟨OPERATION_FORBIDDEN,
                  "User u1 is not allowed to access space sp1"⟩) },
          Except.error ⟨OPERATION_FORBIDDEN, "User u1 is not allowed to access space sp1"⟩,
          []))) :=
  claim4_failure_state_amended
    { roleDefs := [⟨"root", ["all"]⟩, ⟨"student", ["Post-read"]⟩] }
    ⟨false, some ⟨"u1", none⟩⟩ {} "Post" (some { classRoom := some "sp1" }) none none 1
    { userRoles := [], fetchedRoles := false,
      rolePromise := some (Except.error ⟨OPERATION_FORBIDDEN,
        "User u1 is not allowed to access space sp1"⟩) }
    ⟨OPERATION_FORBIDDEN, "User u1 is not allowed to access space sp1"⟩
    ["UBRoleDefinition", "UBClassRoomUser"] rfl rfl (by decide)

/-- C9 counterexample: `getUserRoles` assigns `this.rolePromise` only
inside the `.then` of its first backend query, and writes nothing before
that suspension (the sync phase only reads the state).  A second call
arriving while the first is in flight but before that first query has
resolved therefore observes the untouched state and starts its own
resolution — it issues a fresh UBRoleDefinition query and does not return
the in-flight promise. -/
theorem claim9_counterexample :
    Auth.getUserRolesSyncPhase ⟨false, some ⟨"u1", none⟩⟩ {} =
      SyncResult.issuesQuery "UBRoleDefinition" ∧
    (Auth.getUserRolesSyncPhase ⟨false, some ⟨"u1", none⟩⟩ {}).isStoredPromise = false := by
  refine ⟨by decide, by decide⟩

/-- C9 (amended): once `fetchedRoles` is set a call returns the memoized
roles with no query; once `rolePromise` has been assigned (which happens
only after the definitions query and space resolution resolve) a call
returns that same stored promise with no query; but in the window before
the assignment a call starts a fresh resolution (issues the
UBRoleDefinition query); and any call sequentially following a successful
resolution returns the identical token set with no further backend
queries. -/
theorem claim9_memoization_amended :
    (∀ (auth : AuthRec) (st : AuthState),
      (auth.isMaster || auth.user.isNone) = false → st.fetchedRoles = true →
      Auth.getUserRolesSyncPhase auth st = SyncResult.memoized st.userRoles) ∧
    (∀ (auth : AuthRec) (st : AuthState) (p : Except ParseError (List String)),
      (auth.isMaster || auth.user.isNone) = false → st.fetchedRoles = false →
      st.rolePromise = some p →
      Auth.getUserRolesSyncPhase auth st = SyncResult.storedPromise p) ∧
    (∀ (auth : AuthRec) (st : AuthState),
      (auth.isMaster || auth.user.isNone) = false → st.fetchedRoles = false →
      st.rolePromise = none →
      Auth.getUserRolesSyncPhase auth st = SyncResult.issuesQuery "UBRoleDefinition") ∧
    (∀ (env : Env) (auth : AuthRec) (st : AuthState) (cn : String) (d q rq : Option ReqObj)
        (fuel : Nat) (st' : AuthState) (toks log : List String),
      Auth.getUserRolesRun env auth st cn d q rq fuel = some (st', Except.ok toks, log) →
      Auth.getUserRolesRun env auth st' cn d q rq fuel = some (st', Except.ok toks, [])) := by
  refine ⟨?_, ?_, ?_, ?_⟩
  · intro auth st hg hf
    simp [Auth.getUserRolesSyncPhase, hg, hf]
  · intro auth st p hg hf hp
    simp [Auth.getUserRolesSyncPhase, hg, hf, hp]
  · intro auth st hg hf hp
    simp [Auth.getUserRolesSyncPhase, hg, hf, hp]
  · intro env auth st cn d q rq fuel st' toks log h
    exact run_ok_idempotent env auth st cn d q rq fuel st' toks log h

/-- C9 witness: after a successful custom-mode resolution the follow-up
call returns the identical token set with an empty query log. -/
theorem claim9_memoization_amended_witness :
    Auth.getUserRolesRun
        { roleDefs := [⟨"root", ["all"]⟩, ⟨"student", ["Post-read"]⟩],
          classRoomUsers := [⟨"u1", "sp1", "student"⟩] }
        ⟨false, some ⟨"u1", none⟩⟩
        { userRoles := ["role:Post-sp1-read"], fetchedRoles := true, rolePromise := none }
        "Post" (some { objectId := some "o1", classRoom := some "sp1" }) none none 1 =
      some ({ userRoles := ["role:Post-sp1-read"], fetchedRoles := true, rolePromise := none },
        Except.ok ["role:Post-sp1-read"], []) :=
  claim9_memoization_amended.2.2.2
    { roleDefs := [⟨"root", ["all"]⟩, ⟨"student", ["Post-read"]⟩],
      classRoomUsers := [⟨"u1", "sp1", "student"⟩] }
    ⟨false, some ⟨"u1", none⟩⟩ {} "Post" (some { objectId := some "o1", classRoom := some "sp1" }) none none 1
    { userRoles := ["role:Post-sp1-read"], fetchedRoles := true, rolePromise := none }
    ["role:Post-sp1-read"] ["UBRoleDefinition", "UBClassRoomUser"] (by decide)
